import Mathlib

/-!
Verification development for the libsql-orm repository: a shallow embedding
of its filter compiler, migration engine, row mapper, pagination arithmetic,
and the example worker's update handler, with theorems checking the
specification's claims against those definitions.

The repository ships only example programs under `src/examples`; the ORM
core itself (filter compiler, migration engine, row mapper) is not part of
the source tree given here, so those components are modelled from the
specification, as marked on each definition.
-/

namespace LibsqlOrm

/-- Modelled from the spec: `Value` is a tagged union over the column value
kinds {Null, Integer(i64), Real(f64), Text, Boolean, Blob, Timestamp}.  The
source crate's `Value` enum is not under `src/`.  A `Real` payload is kept
as its inert 64-bit pattern and a `Timestamp` as an abstract instant, since
no claim computes with either. -/
inductive Value where
  | Null : Value
  | Integer (n : Int) : Value
  | Real (bits : Nat) : Value
  | Text (s : String) : Value
  | Boolean (b : Bool) : Value
  | Blob (bytes : List Nat) : Value
  | Timestamp (instant : Int) : Value
deriving DecidableEq, Repr

/-- Modelled from the spec: the comparison operator of a leaf `Filter`. -/
inductive FilterOp where
  | Eq | Ne | Gt | Ge | Lt | Le | Like | In | NotIn | IsNull | IsNotNull
deriving DecidableEq, Repr

/-- Modelled from the spec: a leaf filter's right-hand side is one `Value`,
an ordered sequence of `Value` (for `In`/`NotIn`), or nothing (for
`IsNull`/`IsNotNull`). -/
inductive FilterValue where
  | none : FilterValue
  | one (v : Value) : FilterValue
  | many (vs : List Value) : FilterValue
deriving DecidableEq, Repr

/-- Modelled from the spec: a leaf comparison `{field, operator, value}`. -/
structure Filter where
  field : String
  op : FilterOp
  value : FilterValue
deriving DecidableEq, Repr

/-- Modelled from the spec: the recursive boolean filter expression tree
(the crate's `FilterOperator`): a single `Filter`, `And`/`Or` over a list
of children, or `Not`. -/
inductive FilterOperator where
  | Single (f : Filter) : FilterOperator
  | And (xs : List FilterOperator) : FilterOperator
  | Or (xs : List FilterOperator) : FilterOperator
  | Not (x : FilterOperator) : FilterOperator

/-- Modelled from the spec: the error taxonomy entries the claims touch. -/
inductive OrmError where
  | InvalidFilter : OrmError
  | TypeMismatch : OrmError
  | MissingField : OrmError
  | NotFound : OrmError
deriving DecidableEq, Repr

/-- Modelled from the spec: the SQL token for each binary/unary operator. -/
def FilterOp.sql : FilterOp → String
  | .Eq => "="
  | .Ne => "!="
  | .Gt => ">"
  | .Ge => ">="
  | .Lt => "<"
  | .Le => "<="
  | .Like => "LIKE"
  | .In => "IN"
  | .NotIn => "NOT IN"
  | .IsNull => "IS NULL"
  | .IsNotNull => "IS NOT NULL"

/-- Modelled from the spec: boolean comparison values are coerced to
`Integer(0|1)` before binding, matching the storage type. -/
def coerceBind : Value → Value
  | .Boolean b => .Integer (if b then 1 else 0)
  | v => v

/-- Modelled from the spec: `n` comma-separated placeholders, one per
element of an `IN`/`NOT IN` list. -/
def placeholders : Nat → String
  | 0 => ""
  | 1 => "?"
  | n + 2 => "?, " ++ placeholders (n + 1)

/-- The operators whose right-hand side is a value list. -/
def FilterOp.isListOp : FilterOp → Bool
  | .In | .NotIn => true
  | _ => false

/-- The operators that take no right-hand side at all. -/
def FilterOp.isNullOp : FilterOp → Bool
  | .IsNull | .IsNotNull => true
  | _ => false

/-- Modelled from the spec: compile one leaf `Filter` to a fragment and its
bound parameters; an empty `In`/`NotIn` list (or a value of the wrong
shape for the operator) is an `InvalidFilter` error, raised before any SQL
reaches the transport. -/
def compileFilter (f : Filter) : Except OrmError (String × List Value) :=
  if f.op.isNullOp then .ok (f.field ++ " " ++ f.op.sql, [])
  else if f.op.isListOp then
    match f.value with
    | .many [] => .error .InvalidFilter
    | .many vs => .ok (f.field ++ " " ++ f.op.sql ++ " (" ++ placeholders vs.length ++ ")",
        vs.map coerceBind)
    | _ => .error .InvalidFilter
  else
    match f.value with
    | .one v => .ok (f.field ++ " " ++ f.op.sql ++ " ?", [coerceBind v])
    | _ => .error .InvalidFilter

/-- Join already-compiled child fragments with a separator. -/
def joinFrags (sep : String) : List String → String
  | [] => ""
  | [s] => s
  | s :: rest => s ++ sep ++ joinFrags sep rest

mutual

/-- Modelled from the spec: compile a `FilterOperator` tree to a SQL WHERE
fragment plus the ordered parameter list.  `root` is true only at the top of
the tree: an `And`/`Or` group is parenthesized unless it is the root.  An
empty `And` compiles to the always-true fragment `1=1`; an empty `Or` to the
always-false fragment `1=0`.  `Not` wraps its operand in `NOT (...)`. -/
def compileExpr (root : Bool) : FilterOperator → Except OrmError (String × List Value)
  | .Single f => compileFilter f
  | .And [] => .ok ("1=1", [])
  | .Or [] => .ok ("1=0", [])
  | .And (x :: xs) =>
    match compileList (x :: xs) with
    | .error e => .error e
    | .ok parts =>
      let frag := joinFrags " AND " (parts.map Prod.fst)
      .ok (if root then frag else "(" ++ frag ++ ")", (parts.map Prod.snd).flatten)
  | .Or (x :: xs) =>
    match compileList (x :: xs) with
    | .error e => .error e
    | .ok parts =>
      let frag := joinFrags " OR " (parts.map Prod.fst)
      .ok (if root then frag else "(" ++ frag ++ ")", (parts.map Prod.snd).flatten)
  | .Not x =>
    match compileExpr true x with
    | .error e => .error e
    | .ok (frag, ps) => .ok ("NOT (" ++ frag ++ ")", ps)

/-- Compile every child of an `And`/`Or` group, left to right, as non-root
subexpressions. -/
def compileList : List FilterOperator → Except OrmError (List (String × List Value))
  | [] => .ok []
  | x :: xs =>
    match compileExpr false x with
    | .error e => .error e
    | .ok p =>
      match compileList xs with
      | .error e => .error e
      | .ok ps => .ok (p :: ps)

end

/-- The parameters a leaf filter binds, in list order. -/
def filterParams (f : Filter) : List Value :=
  if f.op.isNullOp then []
  else if f.op.isListOp then
    match f.value with | .many vs => vs.map coerceBind | _ => []
  else
    match f.value with | .one v => [coerceBind v] | _ => []

mutual

/-- The leaf parameters of a filter tree in left-to-right, depth-first
visit order — defined independently of the compiler, as a plain traversal. -/
def dfParams : FilterOperator → List Value
  | .Single f => filterParams f
  | .And xs => dfParamsList xs
  | .Or xs => dfParamsList xs
  | .Not x => dfParams x

/-- Depth-first leaf parameters of a list of sibling subtrees. -/
def dfParamsList : List FilterOperator → List Value
  | [] => []
  | x :: xs => dfParams x ++ dfParamsList xs

end

/-- Number of `?` placeholders in a SQL fragment. -/
def countQ (s : String) : Nat := s.data.count '?'

mutual

/-- No field name in the tree contains a `?` character (so placeholder
counting in the emitted fragment is meaningful). -/
def cleanFields : FilterOperator → Bool
  | .Single f => f.field.data.count '?' == 0
  | .And xs => cleanFieldsList xs
  | .Or xs => cleanFieldsList xs
  | .Not x => cleanFields x

/-- Conjunction of `cleanFields` over a list of sibling subtrees. -/
def cleanFieldsList : List FilterOperator → Bool
  | [] => true
  | x :: xs => cleanFields x && cleanFieldsList xs

end

/-- The spec's worked example tree `And([Eq("a",1), Or([Eq("b",2), Eq("c",3)])])`. -/
def specExample : FilterOperator :=
  .And [.Single ⟨"a", .Eq, .one (.Integer 1)⟩,
        .Or [.Single ⟨"b", .Eq, .one (.Integer 2)⟩,
             .Single ⟨"c", .Eq, .one (.Integer 3)⟩]]

theorem countQ_append (a b : String) : countQ (a ++ b) = countQ a + countQ b := by
  simp [countQ, String.data_append, List.count_append]

theorem countQ_placeholders (n : Nat) : countQ (placeholders n) = n := by
  induction n with
  | zero => rfl
  | succ m ih =>
    match m with
    | 0 => rfl
    | k + 1 =>
      rw [show placeholders (k + 2) = "?, " ++ placeholders (k + 1) from rfl,
        countQ_append, ih, show countQ "?, " = 1 from by decide]
      omega

theorem countQ_joinFrags (sep : String) (hsep : countQ sep = 0) (l : List String) :
    countQ (joinFrags sep l) = (l.map countQ).sum := by
  induction l with
  | nil => rfl
  | cons s rest ih =>
    cases rest with
    | nil => simp [joinFrags]
    | cons t ts =>
      rw [show joinFrags sep (s :: t :: ts) = s ++ sep ++ joinFrags sep (t :: ts)
          from rfl, countQ_append, countQ_append, hsep, ih]
      simp

theorem countQ_opsql (op : FilterOp) : countQ op.sql = 0 := by
  cases op <;> decide

theorem countQ_space : countQ " " = 0 := by decide

theorem countQ_padOpen : countQ " (" = 0 := by decide

theorem countQ_rparen : countQ ")" = 0 := by decide

theorem countQ_lparen : countQ "(" = 0 := by decide

theorem countQ_qm : countQ " ?" = 1 := by decide

theorem countQ_andSep : countQ " AND " = 0 := by decide

theorem countQ_orSep : countQ " OR " = 0 := by decide

theorem countQ_notOpen : countQ "NOT (" = 0 := by decide

theorem compileFilter_params (f : Filter) (s : String) (ps : List Value)
    (h : compileFilter f = .ok (s, ps)) :
    ps = filterParams f ∧ (countQ f.field = 0 → countQ s = ps.length) := by
  rcases f with ⟨fld, op, val⟩
  by_cases h0 : op.isNullOp = true
  · simp only [compileFilter, filterParams, h0, if_pos, Except.ok.injEq,
      Prod.mk.injEq] at h ⊢
    obtain ⟨rfl, rfl⟩ := h
    refine ⟨rfl, fun hq => ?_⟩
    simp [countQ_append, countQ_opsql, hq, countQ_space]
  · by_cases h1 : op.isListOp = true
    · rcases val with _ | v | vs
      · simp [compileFilter, h0, h1] at h
      · simp [compileFilter, h0, h1] at h
      · cases vs with
        | nil => simp [compileFilter, h0, h1] at h
        | cons v vt =>
          simp only [compileFilter, filterParams, h0, h1, if_neg, if_pos,
            Bool.false_eq_true, Except.ok.injEq, Prod.mk.injEq] at h ⊢
          obtain ⟨rfl, rfl⟩ := h
          refine ⟨rfl, fun hq => ?_⟩
          simp [countQ_append, countQ_opsql, countQ_placeholders, hq,
            countQ_space, countQ_padOpen, countQ_rparen]
    · rcases val with _ | v | vs
      · simp [compileFilter, h0, h1] at h
      · simp only [compileFilter, filterParams, h0, h1, if_neg,
          Bool.false_eq_true, Except.ok.injEq, Prod.mk.injEq] at h ⊢
        obtain ⟨rfl, rfl⟩ := h
        refine ⟨rfl, fun hq => ?_⟩
        simp [countQ_append, countQ_opsql, hq, countQ_space, countQ_qm]
      · simp [compileFilter, h0, h1] at h

mutual

theorem compileExpr_params (e : FilterOperator) (root : Bool) (s : String)
    (ps : List Value) (h : compileExpr root e = .ok (s, ps)) :
    ps = dfParams e ∧ (cleanFields e = true → countQ s = ps.length) :=
  match e with
  | .Single f => by
    simp only [compileExpr] at h
    obtain ⟨h1, h2⟩ := compileFilter_params f s ps h
    refine ⟨by simpa [dfParams] using h1, fun hc => ?_⟩
    simp only [cleanFields, beq_iff_eq] at hc
    exact h2 hc
  | .And [] => by
    simp only [compileExpr, Except.ok.injEq, Prod.mk.injEq] at h
    obtain ⟨rfl, rfl⟩ := h
    exact ⟨by simp [dfParams, dfParamsList], fun _ => by decide⟩
  | .Or [] => by
    simp only [compileExpr, Except.ok.injEq, Prod.mk.injEq] at h
    obtain ⟨rfl, rfl⟩ := h
    exact ⟨by simp [dfParams, dfParamsList], fun _ => by decide⟩
  | .And (x :: xs) => by
    cases hc : compileList (x :: xs) with
    | error e0 => simp [compileExpr, hc] at h
    | ok parts =>
      simp only [compileExpr, hc, Except.ok.injEq, Prod.mk.injEq] at h
      obtain ⟨rfl, rfl⟩ := h
      obtain ⟨hp, hcount⟩ := compileList_params (x :: xs) parts hc
      refine ⟨by simpa [dfParams] using hp, fun hclean => ?_⟩
      simp only [cleanFields] at hclean
      cases root with
      | true =>
        simp only [if_pos]
        rw [countQ_joinFrags _ countQ_andSep]
        exact hcount hclean
      | false =>
        rw [if_neg Bool.false_ne_true, countQ_append, countQ_append, countQ_lparen,
          countQ_rparen, countQ_joinFrags _ countQ_andSep]
        have := hcount hclean
        omega
  | .Or (x :: xs) => by
    cases hc : compileList (x :: xs) with
    | error e0 => simp [compileExpr, hc] at h
    | ok parts =>
      simp only [compileExpr, hc, Except.ok.injEq, Prod.mk.injEq] at h
      obtain ⟨rfl, rfl⟩ := h
      obtain ⟨hp, hcount⟩ := compileList_params (x :: xs) parts hc
      refine ⟨by simpa [dfParams] using hp, fun hclean => ?_⟩
      simp only [cleanFields] at hclean
      cases root with
      | true =>
        simp only [if_pos]
        rw [countQ_joinFrags _ countQ_orSep]
        exact hcount hclean
      | false =>
        rw [if_neg Bool.false_ne_true, countQ_append, countQ_append, countQ_lparen,
          countQ_rparen, countQ_joinFrags _ countQ_orSep]
        have := hcount hclean
        omega
  | .Not x => by
    cases hc : compileExpr true x with
    | error e0 => simp [compileExpr, hc] at h
    | ok p =>
      rcases p with ⟨frag, ps0⟩
      simp only [compileExpr, hc, Except.ok.injEq, Prod.mk.injEq] at h
      obtain ⟨rfl, rfl⟩ := h
      obtain ⟨hp, hcount⟩ := compileExpr_params x true frag ps0 hc
      refine ⟨by simpa [dfParams] using hp, fun hclean => ?_⟩
      simp only [cleanFields] at hclean
      rw [countQ_append, countQ_append, countQ_notOpen, countQ_rparen,
        hcount hclean]
      omega

theorem compileList_params (xs : List FilterOperator)
    (parts : List (String × List Value)) (h : compileList xs = .ok parts) :
    (parts.map Prod.snd).flatten = dfParamsList xs ∧
    (cleanFieldsList xs = true →
      ((parts.map Prod.fst).map countQ).sum = (parts.map Prod.snd).flatten.length) :=
  match xs with
  | [] => by
    simp only [compileList, Except.ok.injEq] at h
    subst h
    exact ⟨rfl, fun _ => rfl⟩
  | x :: rest => by
    cases hx : compileExpr false x with
    | error e0 => simp [compileList, hx] at h
    | ok p =>
      cases hr : compileList rest with
      | error e0 => simp [compileList, hx, hr] at h
      | ok prest =>
        simp only [compileList, hx, hr, Except.ok.injEq] at h
        subst h
        obtain ⟨hp1, hp2⟩ := compileExpr_params x false p.1 p.2 (by
          rw [hx])
        obtain ⟨hr1, hr2⟩ := compileList_params rest prest hr
        constructor
        · simp only [List.map_cons, List.flatten_cons, dfParamsList, hp1, hr1]
        · intro hclean
          simp only [cleanFieldsList, Bool.and_eq_true] at hclean
          simp only [List.map_cons, List.sum_cons, List.flatten_cons,
            List.length_append, hp2 hclean.1, hr2 hclean.2]

end

mutual

/-- Modelled from the spec: denotation of a filter tree over an abstract
per-leaf row predicate (`And` of all children, `Or` of any child, negation
for `Not`; empty `And` = always-true, empty `Or` = always-false). -/
def evalExpr (leafSem : Filter → Bool) : FilterOperator → Bool
  | .Single f => leafSem f
  | .And xs => evalAll leafSem xs
  | .Or xs => evalAny leafSem xs
  | .Not x => !evalExpr leafSem x

/-- Conjunction of the denotations of a list of sibling subtrees. -/
def evalAll (leafSem : Filter → Bool) : List FilterOperator → Bool
  | [] => true
  | x :: xs => evalExpr leafSem x && evalAll leafSem xs

/-- Disjunction of the denotations of a list of sibling subtrees. -/
def evalAny (leafSem : Filter → Bool) : List FilterOperator → Bool
  | [] => false
  | x :: xs => evalExpr leafSem x || evalAny leafSem xs

end

/-- Modelled from the spec: the statement the query builder sends over the
transport for a `find_where` call — the compiled WHERE fragment wrapped in
a full SELECT with its parameter list.  If the filter fails to compile, the
error is returned before any statement is formed. -/
def findWhereSql (table : String) (e : FilterOperator) :
    Except OrmError (String × List Value) :=
  match compileExpr true e with
  | .error err => .error err
  | .ok (w, ps) => .ok ("SELECT * FROM " ++ table ++ " WHERE " ++ w, ps)

/-- Modelled from the spec: the sequence of statements a `find_where` call
actually hands to the transport's `query`: exactly one on success, none at
all when filter compilation fails. -/
def findWhereExecuted (table : String) (e : FilterOperator) :
    List (String × List Value) :=
  match findWhereSql table e with
  | .error _ => []
  | .ok stmt => [stmt]

/-- C1: for every `FilterExpression`, `compile` binds parameters in the
left-to-right depth-first order of leaf visits and emits exactly one
placeholder per bound parameter, and on the spec's example
`And([Eq("a",1), Or([Eq("b",2), Eq("c",3)])])` compilation yields the SQL
`"a = ? AND (b = ? OR c = ?)"` with the parameter list `[1, 2, 3]`. -/
theorem c1_compile_param_order :
    (∀ (root : Bool) (e : FilterOperator) (s : String) (ps : List Value),
        compileExpr root e = .ok (s, ps) → ps = dfParams e) ∧
    (∀ (root : Bool) (e : FilterOperator) (s : String) (ps : List Value),
        compileExpr root e = .ok (s, ps) → cleanFields e = true →
        countQ s = ps.length) ∧
    compileExpr true specExample =
      .ok ("a = ? AND (b = ? OR c = ?)", [.Integer 1, .Integer 2, .Integer 3]) :=
  ⟨fun root e s ps h => (compileExpr_params e root s ps h).1,
   fun root e s ps h hc => (compileExpr_params e root s ps h).2 hc,
   rfl⟩

/-- Witness for C1 at the spec's worked example. -/
theorem c1_compile_param_order_witness :
    compileExpr true specExample =
      .ok ("a = ? AND (b = ? OR c = ?)",
        [Value.Integer 1, Value.Integer 2, Value.Integer 3]) ∧
    [Value.Integer 1, Value.Integer 2, Value.Integer 3] = dfParams specExample ∧
    countQ "a = ? AND (b = ? OR c = ?)" = 3 := by
  refine ⟨c1_compile_param_order.2.2, ?_, ?_⟩
  · exact c1_compile_param_order.1 true specExample _ _ c1_compile_param_order.2.2
  · have h := c1_compile_param_order.2.1 true specExample _ _
      c1_compile_param_order.2.2 (by rfl)
    simpa using h

/-- C6: the empty conjunction compiles to the always-true fragment and
denotes truth on every row; the empty disjunction compiles to the
always-false fragment and denotes falsehood on every row. -/
theorem c6_empty_and_or :
    compileExpr true (.And []) = .ok ("1=1", []) ∧
    compileExpr true (.Or []) = .ok ("1=0", []) ∧
    (∀ leafSem : Filter → Bool, evalExpr leafSem (.And []) = true) ∧
    (∀ leafSem : Filter → Bool, evalExpr leafSem (.Or []) = false) :=
  ⟨rfl, rfl, fun _ => rfl, fun _ => rfl⟩

/-- C7: a leaf filter whose operator is `In` or `NotIn` with an empty value
list fails to compile with `InvalidFilter`, and a `find_where` call on it
hands no statement at all to the transport. -/
theorem c7_empty_in_rejected (f : Filter) (table : String)
    (hop : f.op = .In ∨ f.op = .NotIn) (hv : f.value = .many []) :
    compileExpr true (.Single f) = .error .InvalidFilter ∧
    findWhereExecuted table (.Single f) = [] := by
  rcases f with ⟨fld, op, val⟩
  have hc : compileFilter ⟨fld, op, val⟩ = .error .InvalidFilter := by
    rcases hop with h | h <;> subst h <;>
      simp_all [compileFilter, FilterOp.isNullOp, FilterOp.isListOp]
  refine ⟨by simp [compileExpr, hc], ?_⟩
  simp [findWhereExecuted, findWhereSql, compileExpr, hc]

/-- Witness for C7: the concrete filter `status IN ()`. -/
theorem c7_empty_in_rejected_witness :
    ((⟨"status", .In, .many []⟩ : Filter).op = .In ∨
      (⟨"status", .In, .many []⟩ : Filter).op = .NotIn) ∧
    compileExpr true (.Single ⟨"status", .In, .many []⟩) =
      .error .InvalidFilter ∧
    findWhereExecuted "users" (.Single ⟨"status", .In, .many []⟩) = [] :=
  ⟨Or.inl rfl, c7_empty_in_rejected ⟨"status", .In, .many []⟩ "users"
    (Or.inl rfl) rfl⟩

/-- Modelled from the spec: decode a stored value for a Boolean-typed
column.  The storage engine has no native boolean, so Integer 0 and 1 are
reinterpreted as false and true; any other Integer is a data-integrity
`TypeMismatch`, never silently coerced.  Null on a required field is a
`MissingField` error. -/
def decodeBool : Value → Except OrmError Bool
  | .Boolean b => .ok b
  | .Integer 0 => .ok false
  | .Integer 1 => .ok true
  | .Null => .error .MissingField
  | _ => .error .TypeMismatch

/-- Modelled from the spec: decode an optional integer column: Null maps to
`none`, an Integer to `some`, anything else is a `TypeMismatch`. -/
def decodeOptInt : Value → Except OrmError (Option Int)
  | .Null => .ok none
  | .Integer n => .ok (some n)
  | _ => .error .TypeMismatch

/-- Modelled from the spec: decode a required text column; Null is a
`MissingField` error. -/
def decodeText : Value → Except OrmError String
  | .Text s => .ok s
  | .Null => .error .MissingField
  | _ => .error .TypeMismatch

/-- Modelled from the spec: decode a required timestamp column; Null is a
`MissingField` error. -/
def decodeTimestamp : Value → Except OrmError Int
  | .Timestamp t => .ok t
  | .Null => .error .MissingField
  | _ => .error .TypeMismatch

/-- The `User` record of `src/examples/basic_crud.rs`: optional primary
key, two required strings, an optional integer, a boolean and a creation
timestamp. -/
structure UserRecord where
  id : Option Int
  name : String
  email : String
  age : Option Int
  is_active : Bool
  created_at : Int
deriving DecidableEq, Repr

/-- Modelled from the spec: `encode` emits the record's column values in
the descriptor's fixed column order; a boolean persists as Integer 0/1 and
an absent optional as Null. -/
def encodeUser (u : UserRecord) : List Value :=
  [(match u.id with | some n => .Integer n | none => .Null),
   .Text u.name,
   .Text u.email,
   (match u.age with | some n => .Integer n | none => .Null),
   .Integer (if u.is_active then 1 else 0),
   .Timestamp u.created_at]

/-- Modelled from the spec: `decode` reconstructs the typed record from a
raw row in descriptor column order, failing on arity or type mismatches. -/
def decodeUser (row : List Value) : Except OrmError UserRecord :=
  match row with
  | [vid, vname, vemail, vage, vact, vts] => do
    let i ← decodeOptInt vid
    let nm ← decodeText vname
    let em ← decodeText vemail
    let a ← decodeOptInt vage
    let b ← decodeBool vact
    let t ← decodeTimestamp vts
    .ok ⟨i, nm, em, a, b, t⟩
  | _ => .error .MissingField

/-- C4: for a Boolean column, decode maps Integer 0 to false and Integer 1
to true, and every other Integer value fails with `TypeMismatch` instead of
being silently coerced. -/
theorem c4_bool_decode :
    decodeBool (.Integer 0) = .ok false ∧
    decodeBool (.Integer 1) = .ok true ∧
    ∀ n : Int, n ≠ 0 → n ≠ 1 → decodeBool (.Integer n) = .error .TypeMismatch := by
  refine ⟨rfl, rfl, fun n h0 h1 => ?_⟩
  match n with
  | Int.ofNat 0 => exact absurd rfl h0
  | Int.ofNat 1 => exact absurd rfl h1
  | Int.ofNat (k + 2) => rfl
  | Int.negSucc k => rfl

/-- Witness for C4 at the integer 2. -/
theorem c4_bool_decode_witness :
    (2 : Int) ≠ 0 ∧ (2 : Int) ≠ 1 ∧
    decodeBool (.Integer 2) = .error .TypeMismatch :=
  ⟨by decide, by decide, c4_bool_decode.2.2 2 (by decide) (by decide)⟩

/-- C5: the row-mapping round-trip law: decoding the encoded column
sequence of any representable record yields exactly that record. -/
theorem c5_roundtrip (u : UserRecord) : decodeUser (encodeUser u) = .ok u := by
  rcases u with ⟨i, nm, em, a, b, t⟩
  rcases i with _ | n <;> rcases a with _ | m <;> cases b <;> rfl

/-- Modelled from the spec: pagination state; `new` clamps page and
per_page to at least 1 before use. -/
structure Pagination where
  page : Nat
  per_page : Nat
deriving DecidableEq, Repr

/-- Modelled from the spec: the `Pagination::new` constructor with its
clamping. -/
def Pagination.new (page per : Nat) : Pagination :=
  ⟨max page 1, max per 1⟩

/-- Modelled from the spec: derived offset `(page-1)*per_page`. -/
def Pagination.offset (p : Pagination) : Nat :=
  (p.page - 1) * p.per_page

/-- Modelled from the spec: derived total page count
`ceil(total_count/per_page)` computed as `(total + per - 1) / per`. -/
def Pagination.totalPages (p : Pagination) (total : Nat) : Nat :=
  (total + p.per_page - 1) / p.per_page

/-- Modelled from the spec: the rows of one page: skip `offset`, take
`per_page` (`LIMIT per_page OFFSET offset`). -/
def Pagination.pageSlice (p : Pagination) (rows : List α) : List α :=
  (rows.drop p.offset).take p.per_page

/-- The computed `totalPages` really is the ceiling: the least page count covering all
rows. -/
theorem totalPages_is_ceil (p : Pagination) (t : Nat) (hper : 0 < p.per_page) :
    t ≤ p.totalPages t * p.per_page ∧
    ∀ k, t ≤ k * p.per_page → p.totalPages t ≤ k := by
  constructor
  · rcases Nat.eq_zero_or_pos t with rfl | ht
    · exact Nat.zero_le _
    rw [Pagination.totalPages, Nat.mul_comm]
    have hd := Nat.div_add_mod (t + p.per_page - 1) p.per_page
    have hm := Nat.mod_lt (t + p.per_page - 1) hper
    generalize hq : p.per_page * ((t + p.per_page - 1) / p.per_page) = m at hd ⊢
    omega
  · intro k hk
    rw [Pagination.totalPages, ← Nat.lt_succ_iff,
      Nat.div_lt_iff_lt_mul hper, Nat.succ_mul]
    omega

/-- C8: pagination arithmetic: page and per_page are clamped to at least 1,
offset is `(page-1)*per_page`, `totalPages` is the ceiling of
`total/per_page`, and for 7 rows at 2 per page there are 4 pages that
partition the rows in order with no overlap or gap, page 4 holding exactly
one row. -/
theorem c8_pagination :
    (∀ page per, 1 ≤ (Pagination.new page per).page ∧
      1 ≤ (Pagination.new page per).per_page) ∧
    (∀ page per, (Pagination.new page per).offset =
      ((Pagination.new page per).page - 1) * (Pagination.new page per).per_page) ∧
    (∀ p : Pagination, ∀ t, 0 < p.per_page →
      t ≤ p.totalPages t * p.per_page ∧
      ∀ k, t ≤ k * p.per_page → p.totalPages t ≤ k) ∧
    ((Pagination.new 1 2).totalPages 7 = 4) ∧
    (∀ l : List Nat, l.length = 7 →
      (Pagination.new 1 2).pageSlice l ++ (Pagination.new 2 2).pageSlice l ++
        (Pagination.new 3 2).pageSlice l ++ (Pagination.new 4 2).pageSlice l = l ∧
      ((Pagination.new 4 2).pageSlice l).length = 1) := by
  refine ⟨fun page per => ⟨Nat.le_max_right .., Nat.le_max_right ..⟩,
    fun page per => rfl,
    fun p t h => totalPages_is_ceil p t h,
    rfl,
    fun l hl => ?_⟩
  rcases l with _ | ⟨a, _ | ⟨b, _ | ⟨c, _ | ⟨d, _ | ⟨e, _ | ⟨f, _ | ⟨g, rest⟩⟩⟩⟩⟩⟩⟩ <;>
    simp_all [Pagination.pageSlice, Pagination.new, Pagination.offset]

/-- Witness for C8 on a concrete list of 7 rows. -/
theorem c8_pagination_witness :
    ([10, 20, 30, 40, 50, 60, 70] : List Nat).length = 7 ∧
    (Pagination.new 1 2).pageSlice [10, 20, 30, 40, 50, 60, 70] ++
      (Pagination.new 2 2).pageSlice [10, 20, 30, 40, 50, 60, 70] ++
      (Pagination.new 3 2).pageSlice [10, 20, 30, 40, 50, 60, 70] ++
      (Pagination.new 4 2).pageSlice [10, 20, 30, 40, 50, 60, 70] =
      ([10, 20, 30, 40, 50, 60, 70] : List Nat) ∧
    ((Pagination.new 4 2).pageSlice ([10, 20, 30, 40, 50, 60, 70] : List Nat)).length = 1 ∧
    (Pagination.new 1 2).totalPages 7 = 4 :=
  ⟨rfl, (c8_pagination.2.2.2.2 [10, 20, 30, 40, 50, 60, 70] rfl).1,
    (c8_pagination.2.2.2.2 [10, 20, 30, 40, 50, 60, 70] rfl).2,
    c8_pagination.2.2.2.1⟩

/-- Modelled from the spec: one migration statement as the transport sees
it: its SQL text plus whether the storage engine rejects it when run. -/
structure Stmt where
  sql : String
  fails : Bool
deriving DecidableEq, Repr

/-- Modelled from the spec: a named, reversible schema-change unit
`{name, up, down}`. -/
structure Migration where
  name : String
  up : List Stmt
  down : List Stmt
deriving DecidableEq, Repr

/-- Modelled from the spec: the database state the migration engine acts
on: the log of committed statement effects plus the ledger of
`(name, executed_at)` rows. -/
structure DBState where
  applied : List String
  ledger : List (String × Nat)
deriving DecidableEq, Repr

/-- The migration names recorded in the ledger. -/
def DBState.ledgerNames (db : DBState) : List String := db.ledger.map Prod.fst

/-- Modelled from the spec: run a statement sequence inside one
transactional scope; the first failing statement aborts the whole unit and
no effect is recorded. -/
def runStmts : List Stmt → List String → Option (List String)
  | [], acc => some acc
  | st :: rest, acc => if st.fails then none else runStmts rest (acc ++ [st.sql])

/-- Modelled from the spec: the migration engine error names the failing
migration so the caller is told which one stopped the batch. -/
inductive MigError where
  | migrationFailed (name : String) : MigError
deriving DecidableEq, Repr

/-- Modelled from the spec: `execute_migration` — a no-op success when the
name is already in the ledger; otherwise every `up` statement runs as one
atomic unit, and only on success is `{name, executed_at=now}` appended to
the ledger. -/
def executeMigration (now : Nat) (m : Migration) (db : DBState) :
    DBState × Except MigError Unit :=
  if m.name ∈ db.ledgerNames then (db, .ok ())
  else
    match runStmts m.up db.applied with
    | none => (db, .error (.migrationFailed m.name))
    | some applied2 => (⟨applied2, db.ledger ++ [(m.name, now)]⟩, .ok ())

/-- Modelled from the spec: `run_migrations` executes each migration in
list order and stops at the first failure, with no rollback of the
committed prefix. -/
def runMigrations (now : Nat) : List Migration → DBState → DBState × Except MigError Unit
  | [], db => (db, .ok ())
  | m :: ms, db =>
    match executeMigration now m db with
    | (db2, .ok _) => runMigrations now ms db2
    | (db2, .error e) => (db2, .error e)

theorem runStmts_all_ok (l : List Stmt) (acc : List String)
    (h : ∀ st ∈ l, st.fails = false) :
    runStmts l acc = some (acc ++ l.map Stmt.sql) := by
  induction l generalizing acc with
  | nil => simp [runStmts]
  | cons st rest ih =>
    have hst := h st (by simp)
    rw [runStmts, if_neg (by simp [hst])]
    rw [ih _ (fun x hx => h x (by simp [hx]))]
    simp

theorem runStmts_has_failure (l : List Stmt) (acc : List String)
    (h : ∃ st ∈ l, st.fails = true) : runStmts l acc = none := by
  induction l generalizing acc with
  | nil => simp at h
  | cons st rest ih =>
    by_cases hst : st.fails = true
    · rw [runStmts, if_pos hst]
    · rcases h with ⟨st2, hmem, hf⟩
      rcases List.mem_cons.1 hmem with rfl | hmem2
      · exact absurd hf hst
      · rw [runStmts, if_neg hst]
        exact ih _ ⟨st2, hmem2, hf⟩

theorem executeMigration_mem (now : Nat) (m : Migration) (db : DBState)
    (h : m.name ∈ db.ledgerNames) : executeMigration now m db = (db, .ok ()) := by
  simp [executeMigration, h]

theorem executeMigration_ok_char (now : Nat) (m : Migration) (db db2 : DBState)
    (hn : m.name ∉ db.ledgerNames)
    (h : executeMigration now m db = (db2, .ok ())) :
    ∃ applied2, runStmts m.up db.applied = some applied2 ∧
      db2 = ⟨applied2, db.ledger ++ [(m.name, now)]⟩ := by
  rw [executeMigration, if_neg hn] at h
  cases hr : runStmts m.up db.applied with
  | none => rw [hr] at h; simp at h
  | some a2 =>
    rw [hr] at h
    simp only [Prod.mk.injEq] at h
    exact ⟨a2, rfl, h.1.symm⟩

theorem executeMigration_error_char (now : Nat) (m : Migration) (db db2 : DBState)
    (e : MigError) (h : executeMigration now m db = (db2, .error e)) :
    db2 = db ∧ e = .migrationFailed m.name ∧ m.name ∉ db.ledgerNames ∧
      runStmts m.up db.applied = none := by
  by_cases hn : m.name ∈ db.ledgerNames
  · rw [executeMigration_mem now m db hn] at h
    simp at h
  · rw [executeMigration, if_neg hn] at h
    cases hr : runStmts m.up db.applied with
    | none =>
      rw [hr] at h
      simp only [Prod.mk.injEq, Except.error.injEq] at h
      exact ⟨h.1.symm, h.2.symm, hn, rfl⟩
    | some a2 =>
      rw [hr] at h
      simp at h

/-- C2: with the migration not yet in the ledger, `execute_migration` is
atomic: if any `up` statement fails, no statement effect persists and the
ledger gains no row; on success every statement's effect is committed and
exactly the row `(name, now)` is appended to the ledger. -/
theorem c2_migration_atomic (now : Nat) (m : Migration) (db : DBState)
    (hn : m.name ∉ db.ledgerNames) :
    ((∃ st ∈ m.up, st.fails = true) →
      executeMigration now m db = (db, .error (.migrationFailed m.name))) ∧
    ((∀ st ∈ m.up, st.fails = false) →
      executeMigration now m db =
        (⟨db.applied ++ m.up.map Stmt.sql, db.ledger ++ [(m.name, now)]⟩, .ok ())) := by
  constructor
  · intro hf
    rw [executeMigration, if_neg hn, runStmts_has_failure m.up db.applied hf]
  · intro hok
    rw [executeMigration, if_neg hn, runStmts_all_ok m.up db.applied hok]

/-- Witness for C2 on a two-statement migration whose second statement
fails: the state is unchanged and the ledger gains no row. -/
theorem c2_migration_atomic_witness :
    ((⟨"m1", [⟨"CREATE TABLE a (x)", false⟩, ⟨"BROKEN", true⟩], []⟩ : Migration).name ∉
      (⟨[], []⟩ : DBState).ledgerNames) ∧
    executeMigration 5 ⟨"m1", [⟨"CREATE TABLE a (x)", false⟩, ⟨"BROKEN", true⟩], []⟩
        ⟨[], []⟩ =
      (⟨[], []⟩, .error (.migrationFailed "m1")) :=
  ⟨by simp [DBState.ledgerNames],
   (c2_migration_atomic 5 ⟨"m1", [⟨"CREATE TABLE a (x)", false⟩, ⟨"BROKEN", true⟩], []⟩
      ⟨[], []⟩ (by simp [DBState.ledgerNames])).1
    ⟨⟨"BROKEN", true⟩, by simp, rfl⟩⟩

/-- C3: `execute_migration` is idempotent: a migration whose name is in the
ledger is a no-op success, and starting from a ledger without the name, a
successful call followed by a second call leaves the state of the first
call untouched (the `up` statements run only once) with exactly one ledger
row for the name. -/
theorem c3_migration_idempotent (now now2 : Nat) (m : Migration) (db : DBState) :
    (m.name ∈ db.ledgerNames → executeMigration now m db = (db, .ok ())) ∧
    (db.ledgerNames.count m.name = 0 →
      (executeMigration now m db).2 = .ok () →
      executeMigration now2 m (executeMigration now m db).1 =
        ((executeMigration now m db).1, .ok ()) ∧
      (executeMigration now m db).1.ledgerNames.count m.name = 1) := by
  refine ⟨executeMigration_mem now m db, fun hc hok => ?_⟩
  have hn : m.name ∉ db.ledgerNames := by
    rw [← List.count_eq_zero]
    exact hc
  cases hr : executeMigration now m db with
  | mk db1 r =>
    cases r with
    | error e => rw [hr] at hok; simp at hok
    | ok u =>
      cases u
      obtain ⟨a2, hrs, rfl⟩ := executeMigration_ok_char now m db db1 hn hr
      dsimp only
      refine ⟨executeMigration_mem now2 m _ (by simp [DBState.ledgerNames]), ?_⟩
      simp only [DBState.ledgerNames] at hc ⊢
      simp [List.count_append, hc]

/-- Witness for C3: executing the same one-statement migration twice from
an empty state. -/
theorem c3_migration_idempotent_witness :
    ((⟨[], []⟩ : DBState).ledgerNames.count "m1" = 0) ∧
    (executeMigration 5 ⟨"m1", [⟨"CREATE TABLE a (x)", false⟩], []⟩ ⟨[], []⟩).2 = .ok () ∧
    executeMigration 6 ⟨"m1", [⟨"CREATE TABLE a (x)", false⟩], []⟩
        (executeMigration 5 ⟨"m1", [⟨"CREATE TABLE a (x)", false⟩], []⟩ ⟨[], []⟩).1 =
      ((executeMigration 5 ⟨"m1", [⟨"CREATE TABLE a (x)", false⟩], []⟩ ⟨[], []⟩).1, .ok ()) ∧
    (executeMigration 5 ⟨"m1", [⟨"CREATE TABLE a (x)", false⟩], []⟩ ⟨[], []⟩).1.ledgerNames.count "m1" = 1 :=
  ⟨rfl, rfl,
    (c3_migration_idempotent 5 6 ⟨"m1", [⟨"CREATE TABLE a (x)", false⟩], []⟩ ⟨[], []⟩).2
      rfl rfl⟩

/-- C9: when `run_migrations` returns a failure naming `n`, the input list
splits as `pre ++ [mfail] ++ post` with `mfail.name = n`; every migration
of `pre` was committed (its ledger row appended in order, with no
rollback), while the failing migration and all later ones are still absent
from the ledger. -/
theorem c9_run_migrations_stops (now : Nat) (ms : List Migration)
    (db db2 : DBState) (n : String)
    (hnodup : (ms.map Migration.name).Nodup)
    (hdisj : ∀ m ∈ ms, m.name ∉ db.ledgerNames)
    (h : runMigrations now ms db = (db2, .error (.migrationFailed n))) :
    ∃ pre mfail post, ms = pre ++ mfail :: post ∧ mfail.name = n ∧
      db2.ledger = db.ledger ++ pre.map (fun x => (x.name, now)) ∧
      mfail.name ∉ db2.ledgerNames ∧
      ∀ p ∈ post, p.name ∉ db2.ledgerNames := by
  induction ms generalizing db with
  | nil => simp [runMigrations] at h
  | cons m rest ih =>
    cases hr : executeMigration now m db with
    | mk db1 r =>
      cases r with
      | error e =>
        rw [runMigrations, hr] at h
        simp only [Prod.mk.injEq, Except.error.injEq] at h
        obtain ⟨h12, he⟩ := h
        obtain ⟨hdb, he2, hnn, hrun⟩ := executeMigration_error_char now m db db1 e hr
        subst h12
        subst hdb
        refine ⟨[], m, rest, by simp, ?_, by simp, hnn, fun p hp => hdisj p (by simp [hp])⟩
        have h3 := he2.symm.trans he
        cases h3
        rfl
      | ok u =>
        cases u
        rw [runMigrations, hr] at h
        have hn1 : m.name ∉ db.ledgerNames := hdisj m (by simp)
        obtain ⟨a2, hrs, rfl⟩ := executeMigration_ok_char now m db db1 hn1 hr
        have hnodup1 : (rest.map Migration.name).Nodup := by
          simp only [List.map_cons, List.nodup_cons] at hnodup
          exact hnodup.2
        have hhead : m.name ∉ rest.map Migration.name := by
          simp only [List.map_cons, List.nodup_cons] at hnodup
          exact hnodup.1
        have hdisj1 : ∀ p ∈ rest, p.name ∉
            (DBState.mk a2 (db.ledger ++ [(m.name, now)])).ledgerNames := by
          intro p hp
          simp only [DBState.ledgerNames, List.map_append, List.mem_append,
            List.map_cons, List.map_nil, List.mem_singleton]
          rintro (hin | hin)
          · exact hdisj p (by simp [hp]) hin
          · exact hhead (hin ▸ List.mem_map_of_mem Migration.name hp)
        obtain ⟨pre, mfail, post, hsplit, hname, hled, hm1, hm2⟩ :=
          ih _ hnodup1 hdisj1 h
        refine ⟨m :: pre, mfail, post, by rw [hsplit]; simp, hname, ?_, hm1, hm2⟩
        rw [hled]
        simp [DBState.ledgerNames]

/-- Witness for C9: a three-migration batch whose second migration fails:
the first stays committed, the second and third stay pending, and the
error names the second. -/
theorem c9_run_migrations_stops_witness :
    runMigrations 7
        [⟨"m1", [⟨"s1", false⟩], []⟩, ⟨"m2", [⟨"s2", true⟩], []⟩,
          ⟨"m3", [⟨"s3", false⟩], []⟩] ⟨[], []⟩ =
      (⟨["s1"], [("m1", 7)]⟩, .error (.migrationFailed "m2")) ∧
    ∃ pre mfail post,
      ([⟨"m1", [⟨"s1", false⟩], []⟩, ⟨"m2", [⟨"s2", true⟩], []⟩,
          ⟨"m3", [⟨"s3", false⟩], []⟩] : List Migration) = pre ++ mfail :: post ∧
      mfail.name = "m2" ∧
      (⟨["s1"], [("m1", 7)]⟩ : DBState).ledger =
        (⟨[], []⟩ : DBState).ledger ++ pre.map (fun x => (x.name, 7)) ∧
      mfail.name ∉ (⟨["s1"], [("m1", 7)]⟩ : DBState).ledgerNames ∧
      ∀ p ∈ post, p.name ∉ (⟨["s1"], [("m1", 7)]⟩ : DBState).ledgerNames :=
  ⟨rfl,
   c9_run_migrations_stops 7
     [⟨"m1", [⟨"s1", false⟩], []⟩, ⟨"m2", [⟨"s2", true⟩], []⟩,
       ⟨"m3", [⟨"s3", false⟩], []⟩] ⟨[], []⟩ ⟨["s1"], [("m1", 7)]⟩ "m2"
     (by simp) (by simp [DBState.ledgerNames]) rfl⟩

/-- The `Post` model of `src/examples/cloudflare_worker.rs`: optional
primary key, title, content, author, published flag and two timestamps. -/
structure Post where
  id : Option Int
  title : String
  content : String
  author : String
  published : Bool
  created_at : Int
  updated_at : Int
deriving DecidableEq, Repr

/-- The `UpdatePostRequest` payload of `src/examples/cloudflare_worker.rs`:
every field optional. -/
structure UpdatePostRequest where
  title : Option String
  content : Option String
  published : Option Bool
deriving DecidableEq, Repr

/-- The field-merge step of the worker's `PUT /posts/{id}` handler
(`src/examples/cloudflare_worker.rs` lines 128-138): each provided request
field overwrites the fetched post in turn, then `updated_at` is set to the
current time. -/
def applyUpdate (post : Post) (u : UpdatePostRequest) (now : Int) : Post :=
  let p1 := match u.title with
    | some t => { post with title := t }
    | none => post
  let p2 := match u.content with
    | some c => { p1 with content := c }
    | none => p1
  let p3 := match u.published with
    | some b => { p2 with published := b }
    | none => p2
  { p3 with updated_at := now }

/-- C10: in the PUT handler's merge, every absent request field leaves the
corresponding post field unchanged, the post's id, author and created_at
are never modified, and updated_at is always overwritten with the current
time. -/
theorem c10_update_handler_frame (post : Post) (u : UpdatePostRequest) (now : Int) :
    (u.title = none → (applyUpdate post u now).title = post.title) ∧
    (u.content = none → (applyUpdate post u now).content = post.content) ∧
    (u.published = none → (applyUpdate post u now).published = post.published) ∧
    (applyUpdate post u now).id = post.id ∧
    (applyUpdate post u now).author = post.author ∧
    (applyUpdate post u now).created_at = post.created_at ∧
    (applyUpdate post u now).updated_at = now := by
  rcases u with ⟨t, c, b⟩
  rcases t with _ | t <;> rcases c with _ | c <;> rcases b with _ | b <;>
    simp [applyUpdate]

/-- Witness for C10: a request leaving title and published absent keeps
them, while content is replaced and updated_at is stamped. -/
theorem c10_update_handler_frame_witness :
    ((⟨none, some "new body", none⟩ : UpdatePostRequest).title = none) ∧
    (applyUpdate ⟨some 3, "t0", "c0", "alice", false, 1, 2⟩
        ⟨none, some "new body", none⟩ 9).title = "t0" ∧
    (applyUpdate ⟨some 3, "t0", "c0", "alice", false, 1, 2⟩
        ⟨none, some "new body", none⟩ 9).published = false ∧
    (applyUpdate ⟨some 3, "t0", "c0", "alice", false, 1, 2⟩
        ⟨none, some "new body", none⟩ 9).id = some 3 ∧
    (applyUpdate ⟨some 3, "t0", "c0", "alice", false, 1, 2⟩
        ⟨none, some "new body", none⟩ 9).author = "alice" ∧
    (applyUpdate ⟨some 3, "t0", "c0", "alice", false, 1, 2⟩
        ⟨none, some "new body", none⟩ 9).created_at = 1 ∧
    (applyUpdate ⟨some 3, "t0", "c0", "alice", false, 1, 2⟩
        ⟨none, some "new body", none⟩ 9).updated_at = 9 := by
  have h := c10_update_handler_frame ⟨some 3, "t0", "c0", "alice", false, 1, 2⟩
    ⟨none, some "new body", none⟩ 9
  exact ⟨rfl, h.1 rfl, h.2.2.1 rfl, h.2.2.2.1, h.2.2.2.2.1, h.2.2.2.2.2.1,
    h.2.2.2.2.2.2⟩

end LibsqlOrm
